import Mathlib

/-!
Verification of the event-aggregation engine of the ultimate-stats-tracker
backend (backend/stats_engine.py), against its design specification.

Modelling choices:
  * Coordinates and yardage values are real numbers (the source uses Python
    floats for pure arithmetic: subtraction, squaring, square root, addition).
  * Python integers (`touches`, `turnovers`) are modelled as `Int`.
  * The timestamp is modelled as a natural number; the source uses it only
    through its linear order (`df.sort_values(by='timestamp')`).
  * The Python dict `stats` (which preserves insertion order and has unique
    keys) is modelled as an association list `List (String × StatAcc)`;
    insertion appends at the end, update rewrites the first matching key.
  * `pd.DataFrame([])` produces a frame with no columns, so
    `df.sort_values(by='timestamp')` raises `KeyError: 'timestamp'` when the
    input list is empty; the fallible call is modelled with `Option`, `none`
    being the raised error.
  * Python's `round(x, 1)` is modelled as rounding to the nearest tenth
    (`round1` below).  Python uses round-half-to-even on floats; none of the
    properties proved here depends on the direction of ties, only on where
    the rounding is applied.
-/

/-- Incoming event record (backend/schemas.py, class EventCreate). -/
structure EventCreate where
  player_name : String
  action_type : String
  x : ℝ
  y : ℝ
  timestamp : ℕ

/-- Outgoing statistics record (backend/schemas.py, class PlayerStats). -/
structure PlayerStats where
  player_name : String
  touches : ℤ
  throwing_yards : ℝ
  receiving_yards : ℝ
  turnovers : ℤ

/-- Per-player running totals: the value type of the Python dict `stats`
(backend/stats_engine.py line 36). -/
structure StatAcc where
  touches : ℤ
  throwing_yards : ℝ
  receiving_yards : ℝ
  turnovers : ℤ

/-- The all-zero accumulator used at lazy initialization
(backend/stats_engine.py lines 37 and 39). -/
def statAcc0 : StatAcc := ⟨0, 0, 0, 0⟩

/-- The state of the Python dict `stats`: keys in insertion order. -/
abbrev Stats : Type := List (String × StatAcc)

/-- Distance in yards using Pythagoras
(backend/stats_engine.py, calculate_distance). -/
noncomputable def calculate_distance (x1 y1 x2 y2 : ℝ) : ℝ :=
  Real.sqrt ((x2 - x1) ^ 2 + (y2 - y1) ^ 2)

/-- Key membership of the dict (`player not in stats`). -/
def hasKey (st : Stats) (n : String) : Prop := n ∈ st.map Prod.fst

instance (st : Stats) (n : String) : Decidable (hasKey st n) := by
  unfold hasKey; infer_instance

/-- Lazy initialization of a player's accumulator
(backend/stats_engine.py lines 36-39): a missing key is inserted, at the end,
with the all-zero accumulator; a present key is left alone. -/
def initPlayer (st : Stats) (n : String) : Stats :=
  if hasKey st n then st else st ++ [(n, statAcc0)]

/-- Point update of one key of the dict (`stats[name][field] += ...`):
rewrite the first entry with the given key; keys are unique in a dict, so
rewriting the first match is exact. -/
def updatePlayer : Stats → String → (StatAcc → StatAcc) → Stats
  | [], _, _ => []
  | (k, v) :: rest, n, f =>
      if k = n then (k, f v) :: rest else (k, v) :: updatePlayer rest n f

/-- Reading a player's accumulator; a missing key reads as the zero record
(used only to state properties; the source never reads a missing key). -/
def getStat : Stats → String → StatAcc
  | [], _ => statAcc0
  | (k, v) :: rest, n => if k = n then v else getStat rest n

/-- The body of the per-pair loop (backend/stats_engine.py lines 30-55):
lazy initialization for the current actor then the previous actor, then the
completion rule, else the turnover rule, else nothing. -/
noncomputable def stepPair (st : Stats) (prev curr : EventCreate) : Stats :=
  if curr.action_type = "catch" ∧
      (prev.action_type = "catch" ∨ prev.action_type = "pull") then
    updatePlayer
      (updatePlayer
        (updatePlayer (initPlayer (initPlayer st curr.player_name) prev.player_name)
          prev.player_name
          (fun a => { a with throwing_yards :=
            a.throwing_yards + calculate_distance prev.x prev.y curr.x curr.y }))
        curr.player_name
        (fun a => { a with receiving_yards :=
          a.receiving_yards + calculate_distance prev.x prev.y curr.x curr.y }))
      curr.player_name
      (fun a => { a with touches := a.touches + 1 })
  else if curr.action_type = "turnover" then
    updatePlayer (initPlayer (initPlayer st curr.player_name) prev.player_name)
      curr.player_name
      (fun a => { a with turnovers := a.turnovers + 1 })
  else initPlayer (initPlayer st curr.player_name) prev.player_name

/-- Ordering of events by timestamp, the sort key of
`df.sort_values(by='timestamp')` (backend/stats_engine.py line 22). -/
def tsLe (a b : EventCreate) : Prop := a.timestamp ≤ b.timestamp

instance : DecidableRel tsLe := fun a b => Nat.decLe a.timestamp b.timestamp

instance : IsTotal EventCreate tsLe := ⟨fun a b => Nat.le_total a.timestamp b.timestamp⟩

instance : IsTrans EventCreate tsLe := ⟨fun _ _ _ h h2 => Nat.le_trans h h2⟩

/-- The timestamp sort of backend/stats_engine.py line 22, realized as an
insertion sort (a deterministic sort by the `timestamp` column). -/
def sortEvents (l : List EventCreate) : List EventCreate :=
  l.insertionSort tsLe

/-- The adjacent pairs (previous event, current event) visited by the loop
`for i in range(1, len(df))` (backend/stats_engine.py line 29). -/
def adjacentPairs (l : List EventCreate) : List (EventCreate × EventCreate) :=
  l.zip l.tail

/-- Folding the loop body over a list of (previous, current) pairs starting
from a given dict state. -/
noncomputable def runPairsFrom (st : Stats) (ps : List (EventCreate × EventCreate)) : Stats :=
  ps.foldl (fun s pc => stepPair s pc.1 pc.2) st

/-- The full loop of backend/stats_engine.py lines 29-55, starting from the
empty dict of line 26. -/
noncomputable def runPairs (ps : List (EventCreate × EventCreate)) : Stats :=
  runPairsFrom [] ps

/-- Python's `round(x, 1)`: round to one decimal place.  Tie direction
(half-to-even in Python) is immaterial to the proved properties. -/
noncomputable def round1 (x : ℝ) : ℝ := (round (10 * x) : ℤ) / 10

/-- The output stage (backend/stats_engine.py lines 57-66): one PlayerStats
record per dict entry, in insertion order, yardage rounded to one decimal. -/
noncomputable def emit (st : Stats) : List PlayerStats :=
  st.map (fun p =>
    { player_name := p.1
      touches := p.2.touches
      throwing_yards := round1 p.2.throwing_yards
      receiving_yards := round1 p.2.receiving_yards
      turnovers := p.2.turnovers })

/-- The aggregation engine (backend/stats_engine.py, process_game_events).
An empty input list yields a DataFrame with no columns, so the
`sort_values(by='timestamp')` call raises `KeyError: 'timestamp'`; the raised
error is modelled as `none`.  A nonempty input is sorted by timestamp, folded
pairwise, and emitted. -/
noncomputable def process_game_events : List EventCreate → Option (List PlayerStats)
  | [] => none
  | l@(_ :: _) => some (emit (runPairs (adjacentPairs (sortEvents l))))

/-- The dict state after the first `n` iterations of the loop on input `l`. -/
noncomputable def statsAfter (l : List EventCreate) (n : ℕ) : Stats :=
  runPairs ((adjacentPairs (sortEvents l)).take n)

/-- Whether an adjacent pair satisfies the completion rule of
backend/stats_engine.py line 44. -/
def isCompletion (pc : EventCreate × EventCreate) : Prop :=
  pc.2.action_type = "catch" ∧
    (pc.1.action_type = "catch" ∨ pc.1.action_type = "pull")

instance (pc : EventCreate × EventCreate) : Decidable (isCompletion pc) := by
  unfold isCompletion; infer_instance

/-- The distance attributed to an adjacent pair
(backend/stats_engine.py line 45). -/
noncomputable def pairDist (pc : EventCreate × EventCreate) : ℝ :=
  calculate_distance pc.1.x pc.1.y pc.2.x pc.2.y

/-- Exact throwing yardage accumulated for a player over a pair list, with no
intermediate rounding: the sum of the pair distances of the completion pairs
whose previous event the player acted. -/
noncomputable def rawThrowing (ps : List (EventCreate × EventCreate)) (n : String) : ℝ :=
  (ps.map (fun pc =>
    if isCompletion pc ∧ pc.1.player_name = n then pairDist pc else 0)).sum

/-- Exact receiving yardage accumulated for a player over a pair list. -/
noncomputable def rawReceiving (ps : List (EventCreate × EventCreate)) (n : String) : ℝ :=
  (ps.map (fun pc =>
    if isCompletion pc ∧ pc.2.player_name = n then pairDist pc else 0)).sum

/-- Exact touch count for a player over a pair list. -/
def rawTouches (ps : List (EventCreate × EventCreate)) (n : String) : ℤ :=
  (ps.map (fun pc =>
    if isCompletion pc ∧ pc.2.player_name = n then (1 : ℤ) else 0)).sum

/-- Exact turnover count for a player over a pair list. -/
def rawTurnovers (ps : List (EventCreate × EventCreate)) (n : String) : ℤ :=
  (ps.map (fun pc =>
    if pc.2.action_type = "turnover" ∧ pc.2.player_name = n then (1 : ℤ) else 0)).sum

/-- Nonnegativity of all four counters of one accumulator entry. -/
def accNonneg (v : StatAcc) : Prop :=
  0 ≤ v.touches ∧ 0 ≤ v.throwing_yards ∧ 0 ≤ v.receiving_yards ∧ 0 ≤ v.turnovers

/-- The total of one integer counter over all entries of the dict. -/
def sumBy (g : StatAcc → ℤ) (st : Stats) : ℤ := (st.map (fun p => g p.2)).sum

/-- Events used as concrete witnesses: a pull by alice then a catch by bob. -/
def evA : EventCreate := ⟨"alice", "pull", 0, 0, 0⟩

/-- Witness event: catch by bob 20 yards downfield, one tick later. -/
def evB : EventCreate := ⟨"bob", "catch", 0, 20, 1⟩

/-- Witness input: a completed pull-and-catch. -/
def lAB : List EventCreate := [evA, evB]

/-- The output of the engine on `lAB`, written in the shape the engine
produces it (one completion pair credited to alice and bob). -/
noncomputable def outAB : List PlayerStats :=
  [⟨"bob", 0 + 1, round1 0, round1 (0 + calculate_distance 0 0 0 20), 0⟩,
   ⟨"alice", 0, round1 (0 + calculate_distance 0 0 0 20), round1 0, 0⟩]

/-- Witness event: a pull by carol. -/
def evC : EventCreate := ⟨"carol", "pull", 0, 0, 0⟩

/-- Witness event: a turnover charged to dave, one tick later. -/
def evD : EventCreate := ⟨"dave", "turnover", 0, 0, 1⟩

/-- Witness input: a pull followed by a turnover. -/
def lCD : List EventCreate := [evC, evD]

/-- The output of the engine on `lCD`. -/
noncomputable def outCD : List PlayerStats :=
  [⟨"dave", 0, round1 0, round1 0, 0 + 1⟩,
   ⟨"carol", 0, round1 0, round1 0, 0⟩]

/-- Witness event: a pull by erin. -/
def evE : EventCreate := ⟨"erin", "pull", 0, 0, 0⟩

/-- Witness event: a catch by frank, one tick later. -/
def evF : EventCreate := ⟨"frank", "catch", 0, 5, 1⟩

/-- Witness input in timestamp order. -/
def lEF : List EventCreate := [evE, evF]

/-- The same two witness events, listed in the reverse order. -/
def lFE : List EventCreate := [evF, evE]

lemma getStat_append_new (st : Stats) (n m : String) :
    getStat (st ++ [(n, statAcc0)]) m = getStat st m := by
  induction st with
  | nil => simp [getStat]
  | cons p rest ih =>
      obtain ⟨k, v⟩ := p
      by_cases h : k = m <;> simp [getStat, h, ih]

lemma getStat_initPlayer (st : Stats) (n m : String) :
    getStat (initPlayer st n) m = getStat st m := by
  unfold initPlayer
  split
  · rfl
  · exact getStat_append_new st n m

lemma hasKey_initPlayer (st : Stats) (n m : String) :
    hasKey (initPlayer st n) m ↔ hasKey st m ∨ m = n := by
  unfold initPlayer
  split
  · rename_i h
    constructor
    · exact fun hm => Or.inl hm
    · rintro (hm | rfl)
      · exact hm
      · exact h
  · simp [hasKey]

lemma hasKey_initPlayer_self (st : Stats) (n : String) :
    hasKey (initPlayer st n) n :=
  (hasKey_initPlayer st n n).mpr (Or.inr rfl)

lemma keys_updatePlayer (st : Stats) (n : String) (f : StatAcc → StatAcc) :
    (updatePlayer st n f).map Prod.fst = st.map Prod.fst := by
  induction st with
  | nil => rfl
  | cons p rest ih =>
      obtain ⟨k, v⟩ := p
      by_cases h : k = n <;> simp [updatePlayer, h, ih]

lemma hasKey_updatePlayer (st : Stats) (n m : String) (f : StatAcc → StatAcc) :
    hasKey (updatePlayer st n f) m ↔ hasKey st m := by
  unfold hasKey
  rw [keys_updatePlayer]

lemma getStat_updatePlayer_self (st : Stats) (n : String) (f : StatAcc → StatAcc)
    (h : hasKey st n) : getStat (updatePlayer st n f) n = f (getStat st n) := by
  induction st with
  | nil => simp [hasKey] at h
  | cons p rest ih =>
      obtain ⟨k, v⟩ := p
      by_cases hk : k = n
      · simp [updatePlayer, getStat, hk]
      · have h2 : hasKey rest n := by
          rcases (by simpa [hasKey] using h : n = k ∨ n ∈ rest.map Prod.fst) with h1 | h1
          · exact absurd h1.symm hk
          · exact h1
        simp [updatePlayer, getStat, hk, ih h2]

lemma getStat_updatePlayer_ne (st : Stats) (n m : String) (f : StatAcc → StatAcc)
    (h : m ≠ n) : getStat (updatePlayer st n f) m = getStat st m := by
  induction st with
  | nil => rfl
  | cons p rest ih =>
      obtain ⟨k, v⟩ := p
      by_cases hk : k = n
      · subst hk
        simp [updatePlayer, getStat, Ne.symm h]
      · by_cases hm : k = m <;> simp [updatePlayer, getStat, hk, hm, h, ih]

lemma getStat_updatePlayer_proj {β : Type} (g : StatAcc → β) (st : Stats)
    (n m : String) (f : StatAcc → StatAcc) (hf : ∀ v, g (f v) = g v) :
    g (getStat (updatePlayer st n f) m) = g (getStat st m) := by
  induction st with
  | nil => rfl
  | cons p rest ih =>
      obtain ⟨k, v⟩ := p
      by_cases hk : k = n
      · subst hk
        by_cases hm : k = m
        · simp [updatePlayer, getStat, hm, hf]
        · simp [updatePlayer, getStat, hm]
      · by_cases hm : k = m
        · subst hm
          simp [updatePlayer, getStat, hk]
        · simp [updatePlayer, getStat, hk, hm, ih]

lemma keys_nodup_initPlayer (st : Stats) (n : String)
    (h : (st.map Prod.fst).Nodup) : ((initPlayer st n).map Prod.fst).Nodup := by
  unfold initPlayer
  by_cases hmem : hasKey st n
  · rw [if_pos hmem]; exact h
  · rw [if_neg hmem]
    have hnd : (st.map Prod.fst ++ [n]).Nodup := by
      refine List.Nodup.append h (List.nodup_singleton n) ?_
      intro a ha han
      rw [List.mem_singleton] at han
      exact hmem (han ▸ ha)
    simpa using hnd

lemma getStat_stepPair_throwing (st : Stats) (prev curr : EventCreate) (n : String) :
    (getStat (stepPair st prev curr) n).throwing_yards =
      (getStat st n).throwing_yards +
        (if isCompletion (prev, curr) ∧ prev.player_name = n
          then pairDist (prev, curr) else 0) := by
  unfold stepPair
  set st2 := initPlayer (initPlayer st curr.player_name) prev.player_name with hst2
  have hg : ∀ m, getStat st2 m = getStat st m := fun m => by
    rw [hst2, getStat_initPlayer, getStat_initPlayer]
  have hkp : hasKey st2 prev.player_name := hasKey_initPlayer_self _ _
  by_cases hcomp : curr.action_type = "catch" ∧
      (prev.action_type = "catch" ∨ prev.action_type = "pull")
  · rw [if_pos hcomp]
    have hC : isCompletion (prev, curr) := hcomp
    rw [getStat_updatePlayer_proj StatAcc.throwing_yards _ _ _
      (fun a => { a with touches := a.touches + 1 }) (fun v => rfl)]
    rw [getStat_updatePlayer_proj StatAcc.throwing_yards _ _ _
      (fun a => { a with receiving_yards :=
        a.receiving_yards + calculate_distance prev.x prev.y curr.x curr.y })
      (fun v => rfl)]
    by_cases hn : prev.player_name = n
    · subst hn
      rw [getStat_updatePlayer_self _ _ _ hkp]
      dsimp only
      rw [hg, if_pos ⟨hC, rfl⟩]
      rfl
    · rw [getStat_updatePlayer_ne _ _ _ _ (fun h => hn h.symm), hg]
      rw [if_neg (fun h => hn h.2), add_zero]
  · rw [if_neg hcomp]
    have hnC : ¬(isCompletion (prev, curr) ∧ prev.player_name = n) :=
      fun h => hcomp h.1
    rw [if_neg hnC, add_zero]
    by_cases ht : curr.action_type = "turnover"
    · rw [if_pos ht]
      rw [getStat_updatePlayer_proj StatAcc.throwing_yards _ _ _
        (fun a => { a with turnovers := a.turnovers + 1 }) (fun v => rfl)]
      rw [hg]
    · rw [if_neg ht, hg]

lemma getStat_stepPair_receiving (st : Stats) (prev curr : EventCreate) (n : String) :
    (getStat (stepPair st prev curr) n).receiving_yards =
      (getStat st n).receiving_yards +
        (if isCompletion (prev, curr) ∧ curr.player_name = n
          then pairDist (prev, curr) else 0) := by
  unfold stepPair
  set st2 := initPlayer (initPlayer st curr.player_name) prev.player_name with hst2
  have hg : ∀ m, getStat st2 m = getStat st m := fun m => by
    rw [hst2, getStat_initPlayer, getStat_initPlayer]
  have hkc : hasKey st2 curr.player_name := by
    rw [hst2]
    exact (hasKey_initPlayer _ _ _).mpr (Or.inl (hasKey_initPlayer_self _ _))
  by_cases hcomp : curr.action_type = "catch" ∧
      (prev.action_type = "catch" ∨ prev.action_type = "pull")
  · rw [if_pos hcomp]
    have hC : isCompletion (prev, curr) := hcomp
    rw [getStat_updatePlayer_proj StatAcc.receiving_yards _ _ _
      (fun a => { a with touches := a.touches + 1 }) (fun v => rfl)]
    by_cases hn : curr.player_name = n
    · subst hn
      have hkc2 : hasKey
          (updatePlayer st2 prev.player_name
            (fun a => { a with throwing_yards :=
              a.throwing_yards + calculate_distance prev.x prev.y curr.x curr.y }))
          curr.player_name := (hasKey_updatePlayer _ _ _ _).mpr hkc
      rw [getStat_updatePlayer_self _ _ _ hkc2]
      dsimp only
      rw [getStat_updatePlayer_proj StatAcc.receiving_yards _ _ _
        (fun a => { a with throwing_yards :=
          a.throwing_yards + calculate_distance prev.x prev.y curr.x curr.y })
        (fun v => rfl)]
      rw [hg, if_pos ⟨hC, rfl⟩]
      rfl
    · rw [getStat_updatePlayer_ne _ _ _ _ (fun h => hn h.symm)]
      rw [getStat_updatePlayer_proj StatAcc.receiving_yards _ _ _
        (fun a => { a with throwing_yards :=
          a.throwing_yards + calculate_distance prev.x prev.y curr.x curr.y })
        (fun v => rfl)]
      rw [hg, if_neg (fun h => hn h.2), add_zero]
  · rw [if_neg hcomp]
    have hnC : ¬(isCompletion (prev, curr) ∧ curr.player_name = n) :=
      fun h => hcomp h.1
    rw [if_neg hnC, add_zero]
    by_cases ht : curr.action_type = "turnover"
    · rw [if_pos ht]
      rw [getStat_updatePlayer_proj StatAcc.receiving_yards _ _ _
        (fun a => { a with turnovers := a.turnovers + 1 }) (fun v => rfl)]
      rw [hg]
    · rw [if_neg ht, hg]

lemma getStat_stepPair_touches (st : Stats) (prev curr : EventCreate) (n : String) :
    (getStat (stepPair st prev curr) n).touches =
      (getStat st n).touches +
        (if isCompletion (prev, curr) ∧ curr.player_name = n then (1 : ℤ) else 0) := by
  unfold stepPair
  set st2 := initPlayer (initPlayer st curr.player_name) prev.player_name with hst2
  have hg : ∀ m, getStat st2 m = getStat st m := fun m => by
    rw [hst2, getStat_initPlayer, getStat_initPlayer]
  have hkc : hasKey st2 curr.player_name := by
    rw [hst2]
    exact (hasKey_initPlayer _ _ _).mpr (Or.inl (hasKey_initPlayer_self _ _))
  by_cases hcomp : curr.action_type = "catch" ∧
      (prev.action_type = "catch" ∨ prev.action_type = "pull")
  · rw [if_pos hcomp]
    have hC : isCompletion (prev, curr) := hcomp
    by_cases hn : curr.player_name = n
    · subst hn
      have hkc3 : hasKey
          (updatePlayer
            (updatePlayer st2 prev.player_name
              (fun a => { a with throwing_yards :=
                a.throwing_yards + calculate_distance prev.x prev.y curr.x curr.y }))
            curr.player_name
            (fun a => { a with receiving_yards :=
              a.receiving_yards + calculate_distance prev.x prev.y curr.x curr.y }))
          curr.player_name :=
        (hasKey_updatePlayer _ _ _ _).mpr ((hasKey_updatePlayer _ _ _ _).mpr hkc)
      rw [getStat_updatePlayer_self _ _ _ hkc3]
      dsimp only
      rw [getStat_updatePlayer_proj StatAcc.touches _ _ _
        (fun a => { a with receiving_yards :=
          a.receiving_yards + calculate_distance prev.x prev.y curr.x curr.y })
        (fun v => rfl)]
      rw [getStat_updatePlayer_proj StatAcc.touches _ _ _
        (fun a => { a with throwing_yards :=
          a.throwing_yards + calculate_distance prev.x prev.y curr.x curr.y })
        (fun v => rfl)]
      rw [hg, if_pos ⟨hC, rfl⟩]
    · rw [getStat_updatePlayer_ne _ _ _ _ (fun h => hn h.symm)]
      rw [getStat_updatePlayer_proj StatAcc.touches _ _ _
        (fun a => { a with receiving_yards :=
          a.receiving_yards + calculate_distance prev.x prev.y curr.x curr.y })
        (fun v => rfl)]
      rw [getStat_updatePlayer_proj StatAcc.touches _ _ _
        (fun a => { a with throwing_yards :=
          a.throwing_yards + calculate_distance prev.x prev.y curr.x curr.y })
        (fun v => rfl)]
      rw [hg, if_neg (fun h => hn h.2), add_zero]
  · rw [if_neg hcomp]
    have hnC : ¬(isCompletion (prev, curr) ∧ curr.player_name = n) :=
      fun h => hcomp h.1
    rw [if_neg hnC, add_zero]
    by_cases ht : curr.action_type = "turnover"
    · rw [if_pos ht]
      rw [getStat_updatePlayer_proj StatAcc.touches _ _ _
        (fun a => { a with turnovers := a.turnovers + 1 }) (fun v => rfl)]
      rw [hg]
    · rw [if_neg ht, hg]

lemma getStat_stepPair_turnovers (st : Stats) (prev curr : EventCreate) (n : String) :
    (getStat (stepPair st prev curr) n).turnovers =
      (getStat st n).turnovers +
        (if curr.action_type = "turnover" ∧ curr.player_name = n then (1 : ℤ) else 0) := by
  unfold stepPair
  set st2 := initPlayer (initPlayer st curr.player_name) prev.player_name with hst2
  have hg : ∀ m, getStat st2 m = getStat st m := fun m => by
    rw [hst2, getStat_initPlayer, getStat_initPlayer]
  have hkc : hasKey st2 curr.player_name := by
    rw [hst2]
    exact (hasKey_initPlayer _ _ _).mpr (Or.inl (hasKey_initPlayer_self _ _))
  by_cases hcomp : curr.action_type = "catch" ∧
      (prev.action_type = "catch" ∨ prev.action_type = "pull")
  · rw [if_pos hcomp]
    have hnt : ¬(curr.action_type = "turnover" ∧ curr.player_name = n) := by
      rintro ⟨h1, -⟩
      exact absurd (hcomp.1.symm.trans h1) (by decide)
    rw [if_neg hnt, add_zero]
    rw [getStat_updatePlayer_proj StatAcc.turnovers _ _ _
      (fun a => { a with touches := a.touches + 1 }) (fun v => rfl)]
    rw [getStat_updatePlayer_proj StatAcc.turnovers _ _ _
      (fun a => { a with receiving_yards :=
        a.receiving_yards + calculate_distance prev.x prev.y curr.x curr.y })
      (fun v => rfl)]
    rw [getStat_updatePlayer_proj StatAcc.turnovers _ _ _
      (fun a => { a with throwing_yards :=
        a.throwing_yards + calculate_distance prev.x prev.y curr.x curr.y })
      (fun v => rfl)]
    rw [hg]
  · rw [if_neg hcomp]
    by_cases ht : curr.action_type = "turnover"
    · rw [if_pos ht]
      by_cases hn : curr.player_name = n
      · subst hn
        rw [getStat_updatePlayer_self _ _ _ hkc]
        dsimp only
        rw [hg, if_pos ⟨ht, rfl⟩]
      · rw [getStat_updatePlayer_ne _ _ _ _ (fun h => hn h.symm), hg]
        rw [if_neg (fun h => hn h.2), add_zero]
    · rw [if_neg ht, hg]
      rw [if_neg (fun h => ht h.1), add_zero]

lemma hasKey_stepPair (st : Stats) (prev curr : EventCreate) (n : String) :
    hasKey (stepPair st prev curr) n ↔
      hasKey st n ∨ n = curr.player_name ∨ n = prev.player_name := by
  unfold stepPair
  by_cases hcomp : curr.action_type = "catch" ∧
      (prev.action_type = "catch" ∨ prev.action_type = "pull")
  · rw [if_pos hcomp]
    simp only [hasKey_updatePlayer, hasKey_initPlayer]
    tauto
  · rw [if_neg hcomp]
    by_cases ht : curr.action_type = "turnover"
    · rw [if_pos ht]
      simp only [hasKey_updatePlayer, hasKey_initPlayer]
      tauto
    · rw [if_neg ht]
      simp only [hasKey_initPlayer]
      tauto

lemma keys_nodup_stepPair (st : Stats) (prev curr : EventCreate)
    (h : (st.map Prod.fst).Nodup) :
    ((stepPair st prev curr).map Prod.fst).Nodup := by
  unfold stepPair
  have h2 := keys_nodup_initPlayer _ prev.player_name
    (keys_nodup_initPlayer _ curr.player_name h)
  by_cases hcomp : curr.action_type = "catch" ∧
      (prev.action_type = "catch" ∨ prev.action_type = "pull")
  · rw [if_pos hcomp]
    simpa [keys_updatePlayer] using h2
  · rw [if_neg hcomp]
    by_cases ht : curr.action_type = "turnover"
    · rw [if_pos ht]
      simpa [keys_updatePlayer] using h2
    · rw [if_neg ht]
      exact h2

lemma getStat_runPairsFrom_throwing (ps : List (EventCreate × EventCreate))
    (st : Stats) (n : String) :
    (getStat (runPairsFrom st ps) n).throwing_yards =
      (getStat st n).throwing_yards + rawThrowing ps n := by
  induction ps generalizing st with
  | nil => simp [runPairsFrom, rawThrowing]
  | cons pc ps ih =>
      obtain ⟨p, c⟩ := pc
      show (getStat (runPairsFrom (stepPair st p c) ps) n).throwing_yards = _
      rw [ih, getStat_stepPair_throwing]
      simp only [rawThrowing, List.map_cons, List.sum_cons]
      ring

lemma getStat_runPairsFrom_receiving (ps : List (EventCreate × EventCreate))
    (st : Stats) (n : String) :
    (getStat (runPairsFrom st ps) n).receiving_yards =
      (getStat st n).receiving_yards + rawReceiving ps n := by
  induction ps generalizing st with
  | nil => simp [runPairsFrom, rawReceiving]
  | cons pc ps ih =>
      obtain ⟨p, c⟩ := pc
      show (getStat (runPairsFrom (stepPair st p c) ps) n).receiving_yards = _
      rw [ih, getStat_stepPair_receiving]
      simp only [rawReceiving, List.map_cons, List.sum_cons]
      ring

lemma getStat_runPairsFrom_touches (ps : List (EventCreate × EventCreate))
    (st : Stats) (n : String) :
    (getStat (runPairsFrom st ps) n).touches =
      (getStat st n).touches + rawTouches ps n := by
  induction ps generalizing st with
  | nil => simp [runPairsFrom, rawTouches]
  | cons pc ps ih =>
      obtain ⟨p, c⟩ := pc
      show (getStat (runPairsFrom (stepPair st p c) ps) n).touches = _
      rw [ih, getStat_stepPair_touches]
      simp only [rawTouches, List.map_cons, List.sum_cons]
      ring

lemma getStat_runPairsFrom_turnovers (ps : List (EventCreate × EventCreate))
    (st : Stats) (n : String) :
    (getStat (runPairsFrom st ps) n).turnovers =
      (getStat st n).turnovers + rawTurnovers ps n := by
  induction ps generalizing st with
  | nil => simp [runPairsFrom, rawTurnovers]
  | cons pc ps ih =>
      obtain ⟨p, c⟩ := pc
      show (getStat (runPairsFrom (stepPair st p c) ps) n).turnovers = _
      rw [ih, getStat_stepPair_turnovers]
      simp only [rawTurnovers, List.map_cons, List.sum_cons]
      ring

lemma hasKey_runPairsFrom (ps : List (EventCreate × EventCreate))
    (st : Stats) (n : String) :
    hasKey (runPairsFrom st ps) n ↔
      hasKey st n ∨ ∃ pc ∈ ps, n = pc.1.player_name ∨ n = pc.2.player_name := by
  induction ps generalizing st with
  | nil => simp [runPairsFrom]
  | cons pc ps ih =>
      obtain ⟨p, c⟩ := pc
      show hasKey (runPairsFrom (stepPair st p c) ps) n ↔ _
      rw [ih, hasKey_stepPair]
      simp only [List.mem_cons]
      constructor
      · rintro (((h | h | h) | ⟨pc, hpc, hor⟩))
        · exact Or.inl h
        · exact Or.inr ⟨(p, c), Or.inl rfl, Or.inr h⟩
        · exact Or.inr ⟨(p, c), Or.inl rfl, Or.inl h⟩
        · exact Or.inr ⟨pc, Or.inr hpc, hor⟩
      · rintro (h | ⟨pc, (rfl | hpc), hor⟩)
        · exact Or.inl (Or.inl h)
        · rcases hor with h | h
          · exact Or.inl (Or.inr (Or.inr h))
          · exact Or.inl (Or.inr (Or.inl h))
        · exact Or.inr ⟨pc, hpc, hor⟩

lemma keys_nodup_runPairsFrom (ps : List (EventCreate × EventCreate))
    (st : Stats) (h : (st.map Prod.fst).Nodup) :
    ((runPairsFrom st ps).map Prod.fst).Nodup := by
  induction ps generalizing st with
  | nil => exact h
  | cons pc ps ih =>
      obtain ⟨p, c⟩ := pc
      exact ih _ (keys_nodup_stepPair st p c h)

lemma getStat_of_mem_nodup (st : Stats) (hnd : (st.map Prod.fst).Nodup)
    (p : String × StatAcc) (hp : p ∈ st) : getStat st p.1 = p.2 := by
  induction st with
  | nil => simp at hp
  | cons q rest ih =>
      obtain ⟨k, v⟩ := q
      have hnd2 : (rest.map Prod.fst).Nodup := (List.nodup_cons.mp (by simpa using hnd)).2
      have hknotin : k ∉ rest.map Prod.fst := (List.nodup_cons.mp (by simpa using hnd)).1
      rcases List.mem_cons.mp hp with rfl | hp2
      · simp [getStat]
      · have hk : ¬k = p.1 := by
          intro hkk
          exact hknotin (hkk ▸ List.mem_map_of_mem Prod.fst hp2)
        simp [getStat, hk, ih hnd2 hp2]

lemma accNonneg_statAcc0 : accNonneg statAcc0 :=
  ⟨le_refl 0, le_refl 0, le_refl 0, le_refl 0⟩

lemma mem_updatePlayer_forall {P : StatAcc → Prop} (st : Stats) (n : String)
    (f : StatAcc → StatAcc) (h : ∀ p ∈ st, P p.2) (hf : ∀ v, P v → P (f v)) :
    ∀ q ∈ updatePlayer st n f, P q.2 := by
  induction st with
  | nil => simp [updatePlayer]
  | cons p rest ih =>
      obtain ⟨k, v⟩ := p
      intro q hq
      simp only [updatePlayer] at hq
      by_cases hk : k = n
      · rw [if_pos hk] at hq
        rcases List.mem_cons.mp hq with rfl | hq2
        · exact hf v (h (k, v) (List.mem_cons_self _ _))
        · exact h q (List.mem_cons_of_mem _ hq2)
      · rw [if_neg hk] at hq
        rcases List.mem_cons.mp hq with rfl | hq2
        · exact h (k, v) (List.mem_cons_self _ _)
        · exact ih (fun p hp => h p (List.mem_cons_of_mem _ hp)) q hq2

lemma mem_initPlayer_forall {P : StatAcc → Prop} (st : Stats) (n : String)
    (h : ∀ p ∈ st, P p.2) (h0 : P statAcc0) :
    ∀ q ∈ initPlayer st n, P q.2 := by
  unfold initPlayer
  split
  · exact h
  · intro q hq
    rcases List.mem_append.mp hq with hq2 | hq2
    · exact h q hq2
    · rw [List.mem_singleton] at hq2
      rw [hq2]
      exact h0

lemma accNonneg_stepPair (st : Stats) (prev curr : EventCreate)
    (h : ∀ p ∈ st, accNonneg p.2) :
    ∀ p ∈ stepPair st prev curr, accNonneg p.2 := by
  unfold stepPair
  have hd : 0 ≤ calculate_distance prev.x prev.y curr.x curr.y := Real.sqrt_nonneg _
  have h2 : ∀ p ∈ initPlayer (initPlayer st curr.player_name) prev.player_name,
      accNonneg p.2 :=
    mem_initPlayer_forall _ _
      (mem_initPlayer_forall _ _ h accNonneg_statAcc0) accNonneg_statAcc0
  by_cases hcomp : curr.action_type = "catch" ∧
      (prev.action_type = "catch" ∨ prev.action_type = "pull")
  · rw [if_pos hcomp]
    refine mem_updatePlayer_forall _ _ _
      (mem_updatePlayer_forall _ _ _
        (mem_updatePlayer_forall _ _ _ h2
          (fun v hv => ⟨hv.1, add_nonneg hv.2.1 hd, hv.2.2.1, hv.2.2.2⟩))
        (fun v hv => ⟨hv.1, hv.2.1, add_nonneg hv.2.2.1 hd, hv.2.2.2⟩))
      (fun v hv => ⟨add_nonneg hv.1 zero_le_one, hv.2.1, hv.2.2.1, hv.2.2.2⟩)
  · rw [if_neg hcomp]
    by_cases ht : curr.action_type = "turnover"
    · rw [if_pos ht]
      exact mem_updatePlayer_forall _ _ _ h2
        (fun v hv => ⟨hv.1, hv.2.1, hv.2.2.1, add_nonneg hv.2.2.2 zero_le_one⟩)
    · rw [if_neg ht]
      exact h2

lemma accNonneg_runPairsFrom (ps : List (EventCreate × EventCreate))
    (st : Stats) (h : ∀ p ∈ st, accNonneg p.2) :
    ∀ p ∈ runPairsFrom st ps, accNonneg p.2 := by
  induction ps generalizing st with
  | nil => exact h
  | cons pc ps ih =>
      obtain ⟨p, c⟩ := pc
      exact ih _ (accNonneg_stepPair st p c h)

lemma sumBy_initPlayer (g : StatAcc → ℤ) (st : Stats) (n : String)
    (h0 : g statAcc0 = 0) : sumBy g (initPlayer st n) = sumBy g st := by
  unfold initPlayer
  split
  · rfl
  · simp [sumBy, h0]

lemma sumBy_updatePlayer_const (g : StatAcc → ℤ) (st : Stats) (n : String)
    (f : StatAcc → StatAcc) (hf : ∀ v, g (f v) = g v) :
    sumBy g (updatePlayer st n f) = sumBy g st := by
  induction st with
  | nil => rfl
  | cons p rest ih =>
      obtain ⟨k, v⟩ := p
      by_cases hk : k = n
      · simp [updatePlayer, sumBy, hk, hf]
      · simp only [updatePlayer, if_neg hk, sumBy, List.map_cons, List.sum_cons]
        have h2 := ih
        simp only [sumBy] at h2
        rw [h2]

lemma sumBy_updatePlayer_succ (g : StatAcc → ℤ) (st : Stats) (n : String)
    (f : StatAcc → StatAcc) (hmem : hasKey st n) (hf : ∀ v, g (f v) = g v + 1) :
    sumBy g (updatePlayer st n f) = sumBy g st + 1 := by
  induction st with
  | nil => simp [hasKey] at hmem
  | cons p rest ih =>
      obtain ⟨k, v⟩ := p
      by_cases hk : k = n
      · simp only [updatePlayer, if_pos hk, sumBy, List.map_cons, List.sum_cons, hf]
        ring
      · have h2 : hasKey rest n := by
          rcases (by simpa [hasKey] using hmem : n = k ∨ n ∈ rest.map Prod.fst) with h1 | h1
          · exact absurd h1.symm hk
          · exact h1
        simp only [updatePlayer, if_neg hk, sumBy, List.map_cons, List.sum_cons]
        have := ih h2
        simp only [sumBy] at this
        rw [this]
        ring

lemma sumBy_touches_stepPair (st : Stats) (prev curr : EventCreate) :
    sumBy StatAcc.touches (stepPair st prev curr) =
      sumBy StatAcc.touches st +
        (if isCompletion (prev, curr) then (1 : ℤ) else 0) := by
  unfold stepPair
  have h2 : sumBy StatAcc.touches
      (initPlayer (initPlayer st curr.player_name) prev.player_name) =
      sumBy StatAcc.touches st := by
    rw [sumBy_initPlayer _ _ _ rfl, sumBy_initPlayer _ _ _ rfl]
  have hkc : hasKey (initPlayer (initPlayer st curr.player_name) prev.player_name)
      curr.player_name :=
    (hasKey_initPlayer _ _ _).mpr (Or.inl (hasKey_initPlayer_self _ _))
  by_cases hcomp : curr.action_type = "catch" ∧
      (prev.action_type = "catch" ∨ prev.action_type = "pull")
  · rw [if_pos hcomp]
    have hC : isCompletion (prev, curr) := hcomp
    rw [sumBy_updatePlayer_succ StatAcc.touches _ _
      (fun a => { a with touches := a.touches + 1 })
      ((hasKey_updatePlayer _ _ _ _).mpr ((hasKey_updatePlayer _ _ _ _).mpr hkc))
      (fun v => rfl)]
    rw [sumBy_updatePlayer_const StatAcc.touches _ _ (fun a => { a with receiving_yards := a.receiving_yards + calculate_distance prev.x prev.y curr.x curr.y }) (fun v => rfl)]
    rw [sumBy_updatePlayer_const StatAcc.touches _ _ (fun a => { a with throwing_yards := a.throwing_yards + calculate_distance prev.x prev.y curr.x curr.y }) (fun v => rfl)]
    rw [h2, if_pos hC]
  · rw [if_neg hcomp]
    have hnC : ¬isCompletion (prev, curr) := hcomp
    rw [if_neg hnC, add_zero]
    by_cases ht : curr.action_type = "turnover"
    · rw [if_pos ht]
      rw [sumBy_updatePlayer_const StatAcc.touches _ _ (fun a => { a with turnovers := a.turnovers + 1 }) (fun v => rfl)]
      exact h2
    · rw [if_neg ht]
      exact h2

lemma sumBy_turnovers_stepPair (st : Stats) (prev curr : EventCreate) :
    sumBy StatAcc.turnovers (stepPair st prev curr) =
      sumBy StatAcc.turnovers st +
        (if curr.action_type = "turnover" then (1 : ℤ) else 0) := by
  unfold stepPair
  have h2 : sumBy StatAcc.turnovers
      (initPlayer (initPlayer st curr.player_name) prev.player_name) =
      sumBy StatAcc.turnovers st := by
    rw [sumBy_initPlayer _ _ _ rfl, sumBy_initPlayer _ _ _ rfl]
  have hkc : hasKey (initPlayer (initPlayer st curr.player_name) prev.player_name)
      curr.player_name :=
    (hasKey_initPlayer _ _ _).mpr (Or.inl (hasKey_initPlayer_self _ _))
  by_cases hcomp : curr.action_type = "catch" ∧
      (prev.action_type = "catch" ∨ prev.action_type = "pull")
  · rw [if_pos hcomp]
    have hnt : ¬curr.action_type = "turnover" := by
      intro h1
      exact absurd (hcomp.1.symm.trans h1) (by decide)
    rw [if_neg hnt, add_zero]
    rw [sumBy_updatePlayer_const StatAcc.turnovers _ _ (fun a => { a with touches := a.touches + 1 }) (fun v => rfl)]
    rw [sumBy_updatePlayer_const StatAcc.turnovers _ _ (fun a => { a with receiving_yards := a.receiving_yards + calculate_distance prev.x prev.y curr.x curr.y }) (fun v => rfl)]
    rw [sumBy_updatePlayer_const StatAcc.turnovers _ _ (fun a => { a with throwing_yards := a.throwing_yards + calculate_distance prev.x prev.y curr.x curr.y }) (fun v => rfl)]
    exact h2
  · rw [if_neg hcomp]
    by_cases ht : curr.action_type = "turnover"
    · rw [if_pos ht, if_pos ht]
      rw [sumBy_updatePlayer_succ StatAcc.turnovers _ _
        (fun a => { a with turnovers := a.turnovers + 1 }) hkc (fun v => rfl)]
      rw [h2]
    · rw [if_neg ht, if_neg ht, add_zero]
      exact h2

lemma sumBy_touches_runPairsFrom (ps : List (EventCreate × EventCreate)) (st : Stats) :
    sumBy StatAcc.touches (runPairsFrom st ps) =
      sumBy StatAcc.touches st +
        (ps.map (fun pc => if isCompletion pc then (1 : ℤ) else 0)).sum := by
  induction ps generalizing st with
  | nil => simp [runPairsFrom]
  | cons pc ps ih =>
      obtain ⟨p, c⟩ := pc
      show sumBy StatAcc.touches (runPairsFrom (stepPair st p c) ps) = _
      rw [ih, sumBy_touches_stepPair]
      simp only [List.map_cons, List.sum_cons]
      ring

lemma sumBy_turnovers_runPairsFrom (ps : List (EventCreate × EventCreate)) (st : Stats) :
    sumBy StatAcc.turnovers (runPairsFrom st ps) =
      sumBy StatAcc.turnovers st +
        (ps.map (fun pc =>
          if pc.2.action_type = "turnover" then (1 : ℤ) else 0)).sum := by
  induction ps generalizing st with
  | nil => simp [runPairsFrom]
  | cons pc ps ih =>
      obtain ⟨p, c⟩ := pc
      show sumBy StatAcc.turnovers (runPairsFrom (stepPair st p c) ps) = _
      rw [ih, sumBy_turnovers_stepPair]
      simp only [List.map_cons, List.sum_cons]
      ring

lemma sum_ite_one_eq_countP {α : Type} (P : α → Prop) [DecidablePred P]
    (l : List α) :
    (l.map (fun a => if P a then (1 : ℤ) else 0)).sum =
      (l.countP (fun a => decide (P a)) : ℤ) := by
  induction l with
  | nil => simp
  | cons a l ih =>
      by_cases h : P a
      · simp only [List.map_cons, List.sum_cons, if_pos h, ih, List.countP_cons]
        simp [h]
        ring
      · simp [List.countP_cons, h, ih]

lemma adjacentPairs_length (l : List EventCreate) :
    (adjacentPairs l).length = l.length - 1 := by
  simp only [adjacentPairs, List.length_zip, List.length_tail]
  omega

lemma adjacentPairs_get (l : List EventCreate) (i : ℕ) (hi : i + 1 < l.length)
    (hi2 : i < (adjacentPairs l).length) :
    (adjacentPairs l).get ⟨i, hi2⟩ =
      (l.get ⟨i, Nat.lt_of_succ_lt hi⟩, l.get ⟨i + 1, hi⟩) := by
  unfold adjacentPairs
  simp only [List.get_eq_getElem, List.getElem_zip]
  rw [List.getElem_tail]

lemma statsAfter_succ (l : List EventCreate) (i : ℕ)
    (hi : i + 1 < (sortEvents l).length) :
    statsAfter l (i + 1) =
      stepPair (statsAfter l i)
        ((sortEvents l).get ⟨i, Nat.lt_of_succ_lt hi⟩)
        ((sortEvents l).get ⟨i + 1, hi⟩) := by
  have hlen : i < (adjacentPairs (sortEvents l)).length := by
    rw [adjacentPairs_length]
    omega
  unfold statsAfter runPairs runPairsFrom
  rw [List.take_succ, List.getElem?_eq_getElem hlen, List.foldl_append]
  simp only [Option.toList_some, List.foldl_cons, List.foldl_nil]
  have hp := adjacentPairs_get (sortEvents l) i hi hlen
  rw [List.get_eq_getElem] at hp
  rw [hp]

lemma process_eq_some (l : List EventCreate) (out : List PlayerStats)
    (h : process_game_events l = some out) :
    out = emit (runPairs (adjacentPairs (sortEvents l))) := by
  cases l with
  | nil => simp [process_game_events] at h
  | cons e l0 => simpa [process_game_events] using h.symm

lemma emit_map_player_name (st : Stats) :
    (emit st).map PlayerStats.player_name = st.map Prod.fst := by
  unfold emit
  rw [List.map_map]
  rfl

lemma round1_nonneg (x : ℝ) (hx : 0 ≤ x) : 0 ≤ round1 x := by
  unfold round1
  apply div_nonneg _ (by norm_num)
  have h10 : (0 : ℤ) ≤ round (10 * x) := by
    rw [round_eq]
    apply Int.floor_nonneg.mpr
    linarith
  exact_mod_cast h10

lemma sorted_perm_unique_ts (l₁ : List EventCreate) :
    ∀ l₂, l₁.Perm l₂ → l₁.Sorted tsLe → l₂.Sorted tsLe →
      (l₁.map EventCreate.timestamp).Nodup → l₁ = l₂ := by
  induction l₁ with
  | nil =>
      intro l₂ hp _ _ _
      exact (hp.symm.eq_nil).symm
  | cons a t1 ih =>
      intro l₂ hp hs1 hs2 hnd
      cases l₂ with
      | nil => exact absurd hp.eq_nil (by simp)
      | cons b t2 =>
          by_cases hab : a = b
          · subst hab
            have hp2 : t1.Perm t2 := hp.cons_inv
            have hnd2 : (t1.map EventCreate.timestamp).Nodup :=
              (List.nodup_cons.mp (by simpa using hnd)).2
            rw [ih t2 hp2 hs1.of_cons hs2.of_cons hnd2]
          · exfalso
            have hbt1 : b ∈ t1 := by
              rcases List.mem_cons.mp (hp.mem_iff.mpr (List.mem_cons_self b t2)) with
                h1 | h1
              · exact absurd h1.symm hab
              · exact h1
            have hat2 : a ∈ t2 := by
              rcases List.mem_cons.mp (hp.mem_iff.mp (List.mem_cons_self a t1)) with
                h1 | h1
              · exact absurd h1 hab
              · exact h1
            have h1 : tsLe a b := List.rel_of_sorted_cons hs1 b hbt1
            have h2 : tsLe b a := List.rel_of_sorted_cons hs2 a hat2
            have heq : b.timestamp = a.timestamp := le_antisymm h2 h1
            have hmem : a.timestamp ∈ t1.map EventCreate.timestamp :=
              heq ▸ List.mem_map_of_mem EventCreate.timestamp hbt1
            exact (List.nodup_cons.mp (by simpa using hnd)).1 hmem

/-- Claim C1: the spec requires a sequence of zero or one events to produce an
empty result without failing.  The code satisfies this for one event but fails
for zero events: `pd.DataFrame([])` has no `timestamp` column and
`sort_values` raises `KeyError`.  This theorem records both behaviors of the
code: the error on the empty list and the empty result on singletons. -/
theorem degenerate_input_behavior :
    process_game_events [] = none ∧
      ∀ e : EventCreate, process_game_events [e] = some [] := by
  refine ⟨rfl, fun e => ?_⟩
  rfl

/-- Claim C2: for an adjacent pair (index i-1, index i) of the timestamp-sorted
sequence whose current event is a catch and whose previous event is a catch or
a pull, the iteration adds the Euclidean distance between the two positions to
the previous actor's throwing_yards accumulator (whatever that actor's own
action kind), adds it to the current actor's receiving_yards accumulator, and
increments the current actor's touches by exactly one. -/
theorem completion_pair_updates (l : List EventCreate) (i : ℕ)
    (hi : i + 1 < (sortEvents l).length)
    (prev curr : EventCreate)
    (hprev : (sortEvents l).get ⟨i, Nat.lt_of_succ_lt hi⟩ = prev)
    (hcurr : (sortEvents l).get ⟨i + 1, hi⟩ = curr)
    (hc : curr.action_type = "catch")
    (hp : prev.action_type = "catch" ∨ prev.action_type = "pull") :
    (getStat (statsAfter l (i + 1)) prev.player_name).throwing_yards =
      (getStat (statsAfter l i) prev.player_name).throwing_yards +
        calculate_distance prev.x prev.y curr.x curr.y ∧
    (getStat (statsAfter l (i + 1)) curr.player_name).receiving_yards =
      (getStat (statsAfter l i) curr.player_name).receiving_yards +
        calculate_distance prev.x prev.y curr.x curr.y ∧
    (getStat (statsAfter l (i + 1)) curr.player_name).touches =
      (getStat (statsAfter l i) curr.player_name).touches + 1 := by
  rw [statsAfter_succ l i hi, hprev, hcurr]
  refine ⟨?_, ?_, ?_⟩
  · rw [getStat_stepPair_throwing, if_pos ⟨⟨hc, hp⟩, rfl⟩]
    rfl
  · rw [getStat_stepPair_receiving, if_pos ⟨⟨hc, hp⟩, rfl⟩]
    rfl
  · rw [getStat_stepPair_touches, if_pos ⟨⟨hc, hp⟩, rfl⟩]

/-- Witness for claim C2 at the concrete input `lAB` (pull by alice at (0,0),
catch by bob at (0,20)), pair index 0. -/
theorem completion_pair_updates_witness :
    0 + 1 < (sortEvents lAB).length ∧
      ((getStat (statsAfter lAB (0 + 1)) evA.player_name).throwing_yards =
        (getStat (statsAfter lAB 0) evA.player_name).throwing_yards +
          calculate_distance evA.x evA.y evB.x evB.y ∧
      (getStat (statsAfter lAB (0 + 1)) evB.player_name).receiving_yards =
        (getStat (statsAfter lAB 0) evB.player_name).receiving_yards +
          calculate_distance evA.x evA.y evB.x evB.y ∧
      (getStat (statsAfter lAB (0 + 1)) evB.player_name).touches =
        (getStat (statsAfter lAB 0) evB.player_name).touches + 1) := by
  have hlen : 0 + 1 < (sortEvents lAB).length := by decide
  exact ⟨hlen,
    completion_pair_updates lAB 0 hlen evA evB rfl rfl rfl (Or.inr rfl)⟩

lemma emit_map_turnovers (st : Stats) :
    (emit st).map PlayerStats.turnovers = st.map (fun p => p.2.turnovers) := by
  unfold emit
  rw [List.map_map]
  rfl

lemma emit_map_touches (st : Stats) :
    (emit st).map PlayerStats.touches = st.map (fun p => p.2.touches) := by
  unfold emit
  rw [List.map_map]
  rfl

/-- Claim C3: the output holds exactly one record per distinct player identity
occurring as the previous or the current actor of some adjacent pair of the
sorted sequence (pairs that fire no rule included), and no duplicates. -/
theorem output_names_exactly_pair_actors (l : List EventCreate)
    (out : List PlayerStats) (h : process_game_events l = some out) :
    (out.map PlayerStats.player_name).Nodup ∧
      ∀ n : String, n ∈ out.map PlayerStats.player_name ↔
        ∃ pc ∈ adjacentPairs (sortEvents l),
          n = pc.1.player_name ∨ n = pc.2.player_name := by
  obtain rfl := process_eq_some l out h
  constructor
  · rw [emit_map_player_name]
    exact keys_nodup_runPairsFrom (adjacentPairs (sortEvents l)) [] (by simp)
  · intro n
    rw [emit_map_player_name]
    show hasKey (runPairsFrom [] (adjacentPairs (sortEvents l))) n ↔ _
    rw [hasKey_runPairsFrom]
    simp [hasKey]

/-- Witness for claim C3 at the concrete input `lCD` (pull by carol, then a
turnover by dave). -/
theorem output_names_exactly_pair_actors_witness :
    process_game_events lCD = some outCD ∧
      ((outCD.map PlayerStats.player_name).Nodup ∧
        ∀ n : String, n ∈ outCD.map PlayerStats.player_name ↔
          ∃ pc ∈ adjacentPairs (sortEvents lCD),
            n = pc.1.player_name ∨ n = pc.2.player_name) :=
  ⟨rfl, output_names_exactly_pair_actors lCD outCD rfl⟩

/-- Claim C4: the turnovers emitted across all records add up to the number of
events of the sorted sequence, the event at index 0 excluded, whose action
kind is turnover. -/
theorem turnovers_sum_eq (l : List EventCreate) (out : List PlayerStats)
    (h : process_game_events l = some out) :
    (out.map PlayerStats.turnovers).sum =
      ((sortEvents l).tail.countP
        (fun e => decide (e.action_type = "turnover")) : ℤ) := by
  obtain rfl := process_eq_some l out h
  rw [emit_map_turnovers]
  show sumBy StatAcc.turnovers (runPairsFrom [] (adjacentPairs (sortEvents l))) = _
  rw [sumBy_turnovers_runPairsFrom]
  rw [show sumBy StatAcc.turnovers [] = 0 from rfl, zero_add]
  rw [sum_ite_one_eq_countP
    (fun pc : EventCreate × EventCreate => pc.2.action_type = "turnover")
    (adjacentPairs (sortEvents l))]
  congr 1
  have hlen : (sortEvents l).tail.length ≤ (sortEvents l).length := by
    rw [List.length_tail]
    omega
  conv_rhs => rw [← List.map_snd_zip (sortEvents l) (sortEvents l).tail hlen]
  rw [List.countP_map]
  rfl

/-- Witness for claim C4 at the concrete input `lCD`. -/
theorem turnovers_sum_eq_witness :
    process_game_events lCD = some outCD ∧
      (outCD.map PlayerStats.turnovers).sum =
        ((sortEvents lCD).tail.countP
          (fun e => decide (e.action_type = "turnover")) : ℤ) :=
  ⟨rfl, turnovers_sum_eq lCD outCD rfl⟩

/-- Claim C5: the touches emitted across all records add up to the number of
adjacent pairs of the sorted sequence satisfying the completion rule. -/
theorem touches_sum_eq (l : List EventCreate) (out : List PlayerStats)
    (h : process_game_events l = some out) :
    (out.map PlayerStats.touches).sum =
      ((adjacentPairs (sortEvents l)).countP
        (fun pc => decide (isCompletion pc)) : ℤ) := by
  obtain rfl := process_eq_some l out h
  rw [emit_map_touches]
  show sumBy StatAcc.touches (runPairsFrom [] (adjacentPairs (sortEvents l))) = _
  rw [sumBy_touches_runPairsFrom]
  rw [show sumBy StatAcc.touches [] = 0 from rfl, zero_add]
  rw [sum_ite_one_eq_countP isCompletion]

/-- Witness for claim C5 at the concrete input `lAB` (one completion pair). -/
theorem touches_sum_eq_witness :
    process_game_events lAB = some outAB ∧
      (outAB.map PlayerStats.touches).sum =
        ((adjacentPairs (sortEvents lAB)).countP
          (fun pc => decide (isCompletion pc)) : ℤ) :=
  ⟨rfl, touches_sum_eq lAB outAB rfl⟩

/-- Claim C6: every numeric field of every output record is nonnegative. -/
theorem output_fields_nonneg (l : List EventCreate) (out : List PlayerStats)
    (h : process_game_events l = some out) :
    ∀ r ∈ out, 0 ≤ r.touches ∧ 0 ≤ r.throwing_yards ∧
      0 ≤ r.receiving_yards ∧ 0 ≤ r.turnovers := by
  obtain rfl := process_eq_some l out h
  intro r hr
  obtain ⟨p, hp, rfl⟩ := List.mem_map.mp hr
  obtain ⟨h1, h2, h3, h4⟩ :=
    accNonneg_runPairsFrom (adjacentPairs (sortEvents l)) [] (by simp) p hp
  exact ⟨h1, round1_nonneg _ h2, round1_nonneg _ h3, h4⟩

/-- Witness for claim C6 at the concrete input `lCD`. -/
theorem output_fields_nonneg_witness :
    process_game_events lCD = some outCD ∧
      ∀ r ∈ outCD, 0 ≤ r.touches ∧ 0 ≤ r.throwing_yards ∧
        0 ≤ r.receiving_yards ∧ 0 ≤ r.turnovers :=
  ⟨rfl, output_fields_nonneg lCD outCD rfl⟩

/-- Claim C7: two input lists that are permutations of one multiset of events
with pairwise distinct timestamps produce the same output (here proved as
equality of the full output lists, which subsumes equality as sets). -/
theorem order_insensitive (l1 l2 : List EventCreate) (hperm : l1.Perm l2)
    (hnd : (l1.map EventCreate.timestamp).Nodup) :
    process_game_events l1 = process_game_events l2 := by
  have hsorteq : sortEvents l1 = sortEvents l2 := by
    apply sorted_perm_unique_ts
    · exact (List.perm_insertionSort tsLe l1).trans
        (hperm.trans (List.perm_insertionSort tsLe l2).symm)
    · exact List.sorted_insertionSort tsLe l1
    · exact List.sorted_insertionSort tsLe l2
    · exact ((List.perm_insertionSort tsLe l1).map EventCreate.timestamp).nodup_iff.mpr hnd
  cases l1 with
  | nil =>
      rw [hperm.symm.eq_nil]
  | cons e1 t1 =>
      cases l2 with
      | nil => exact absurd hperm.eq_nil (by simp)
      | cons e2 t2 =>
          show some _ = some _
          rw [show sortEvents (e1 :: t1) = sortEvents (e2 :: t2) from hsorteq]

/-- Witness for claim C7: the two orderings of the events of `lEF`. -/
theorem order_insensitive_witness :
    lEF.Perm lFE ∧ (lEF.map EventCreate.timestamp).Nodup ∧
      process_game_events lEF = process_game_events lFE :=
  ⟨List.Perm.swap evF evE [], by decide,
    order_insensitive lEF lFE (List.Perm.swap evF evE []) (by decide)⟩

/-- Claim C9: each record's yardage fields equal the full-precision
accumulated sums of pair distances rounded once at emission, and its touches
and turnovers equal the exact accumulated counts with no rounding. -/
theorem rounding_only_at_emission (l : List EventCreate)
    (out : List PlayerStats) (h : process_game_events l = some out) :
    ∀ r ∈ out,
      r.throwing_yards =
        round1 (rawThrowing (adjacentPairs (sortEvents l)) r.player_name) ∧
      r.receiving_yards =
        round1 (rawReceiving (adjacentPairs (sortEvents l)) r.player_name) ∧
      r.touches = rawTouches (adjacentPairs (sortEvents l)) r.player_name ∧
      r.turnovers = rawTurnovers (adjacentPairs (sortEvents l)) r.player_name := by
  obtain rfl := process_eq_some l out h
  intro r hr
  obtain ⟨p, hp, rfl⟩ := List.mem_map.mp hr
  have hnd := keys_nodup_runPairsFrom (adjacentPairs (sortEvents l)) [] (by simp)
  have hget : getStat (runPairsFrom [] (adjacentPairs (sortEvents l))) p.1 = p.2 :=
    getStat_of_mem_nodup _ hnd p hp
  have hth := getStat_runPairsFrom_throwing (adjacentPairs (sortEvents l)) [] p.1
  have hrc := getStat_runPairsFrom_receiving (adjacentPairs (sortEvents l)) [] p.1
  have htc := getStat_runPairsFrom_touches (adjacentPairs (sortEvents l)) [] p.1
  have htn := getStat_runPairsFrom_turnovers (adjacentPairs (sortEvents l)) [] p.1
  rw [hget] at hth hrc htc htn
  rw [show getStat [] p.1 = statAcc0 from rfl] at hth hrc htc htn
  rw [show statAcc0.throwing_yards = 0 from rfl, zero_add] at hth
  rw [show statAcc0.receiving_yards = 0 from rfl, zero_add] at hrc
  rw [show statAcc0.touches = 0 from rfl, zero_add] at htc
  rw [show statAcc0.turnovers = 0 from rfl, zero_add] at htn
  exact ⟨congrArg round1 hth, congrArg round1 hrc, htc, htn⟩

/-- Witness for claim C9 at the concrete input `lAB`. -/
theorem rounding_only_at_emission_witness :
    process_game_events lAB = some outAB ∧
      ∀ r ∈ outAB,
        r.throwing_yards =
          round1 (rawThrowing (adjacentPairs (sortEvents lAB)) r.player_name) ∧
        r.receiving_yards =
          round1 (rawReceiving (adjacentPairs (sortEvents lAB)) r.player_name) ∧
        r.touches = rawTouches (adjacentPairs (sortEvents lAB)) r.player_name ∧
        r.turnovers = rawTurnovers (adjacentPairs (sortEvents lAB)) r.player_name :=
  ⟨rfl, rounding_only_at_emission lAB outAB rfl⟩

/-- Claim C10: on an input of at least two events, every event's actor has a
record in the output, the first sorted event's actor included: every sorted
index is covered by some adjacent pair. -/
theorem every_actor_has_record (l : List EventCreate) (out : List PlayerStats)
    (h2 : 2 ≤ l.length) (h : process_game_events l = some out) :
    ∀ e ∈ l, ∃ r ∈ out, r.player_name = e.player_name := by
  obtain rfl := process_eq_some l out h
  intro e he
  have hes : e ∈ sortEvents l := by
    unfold sortEvents
    exact (List.mem_insertionSort tsLe).mpr he
  obtain ⟨⟨j, hj⟩, hje⟩ := List.mem_iff_get.mp hes
  have hlens : (sortEvents l).length = l.length := by
    unfold sortEvents
    exact List.length_insertionSort tsLe l
  have hkey : hasKey (runPairsFrom [] (adjacentPairs (sortEvents l)))
      e.player_name := by
    rw [hasKey_runPairsFrom]
    right
    by_cases hj1 : j + 1 < (sortEvents l).length
    · have hp : j < (adjacentPairs (sortEvents l)).length := by
        rw [adjacentPairs_length]
        omega
      refine ⟨(adjacentPairs (sortEvents l)).get ⟨j, hp⟩, List.get_mem _ _ _, ?_⟩
      rw [adjacentPairs_get (sortEvents l) j hj1 hp]
      left
      rw [show (sortEvents l).get ⟨j, Nat.lt_of_succ_lt hj1⟩ = e from hje]
    · have hj0 : 1 ≤ j := by omega
      have hjpred : (j - 1) + 1 < (sortEvents l).length := by omega
      have hp : j - 1 < (adjacentPairs (sortEvents l)).length := by
        rw [adjacentPairs_length]
        omega
      refine ⟨(adjacentPairs (sortEvents l)).get ⟨j - 1, hp⟩, List.get_mem _ _ _, ?_⟩
      rw [adjacentPairs_get (sortEvents l) (j - 1) hjpred hp]
      right
      have : (j - 1) + 1 = j := by omega
      rw [show (sortEvents l).get ⟨(j - 1) + 1, hjpred⟩ = e by
        rw [← hje]
        congr 1
        exact Fin.ext this]
  obtain ⟨p, hp, hpe⟩ := List.mem_map.mp hkey
  exact ⟨_, List.mem_map_of_mem _ hp, hpe⟩

/-- Witness for claim C10 at the concrete input `lCD`. -/
theorem every_actor_has_record_witness :
    2 ≤ lCD.length ∧ process_game_events lCD = some outCD ∧
      ∀ e ∈ lCD, ∃ r ∈ outCD, r.player_name = e.player_name :=
  ⟨by decide, rfl, every_actor_has_record lCD outCD (by decide) rfl⟩
